import Mathlib

set_option maxHeartbeats 1000000

/-!
Verification of the Mastra LLM gateway adapter layer.

The development shallowly embeds the adapter modules
(`model-config.ts`, `message-adapter.ts`, `typebox-to-zod.ts`,
`tool-adapter.ts`, `compaction.ts`, the run handle of the agent runner)
as executable Lean definitions over a JavaScript value type, and settles
the specification claims against them.
-/

/-- JavaScript runtime values, as manipulated by the adapter layer.
Numbers are modelled as integers (all numeric values appearing in the
adapter code paths are integral). -/
inductive JVal where
  | vNull
  | vUndefined
  | vBool (b : Bool)
  | vNum (n : Int)
  | vStr (s : String)
  | vArr (xs : List JVal)
  | vObj (fs : List (String × JVal))
deriving Repr

/-- JavaScript truthiness: null, undefined, false, 0 and the empty string
are falsy; every array and object is truthy. -/
def jsTruthy : JVal → Bool
  | .vNull => false
  | .vUndefined => false
  | .vBool b => b
  | .vNum n => n != 0
  | .vStr s => s ≠ ""
  | .vArr _ => true
  | .vObj _ => true

/-- Models the JavaScript test `typeof v === "object"`: true for objects,
arrays and null. -/
def jsIsObjType : JVal → Bool
  | .vObj _ => true
  | .vArr _ => true
  | .vNull => true
  | _ => false

/-- Nullish coalescing `a ?? b`. -/
def jvCoalesce (a b : JVal) : JVal :=
  match a with
  | .vNull => b
  | .vUndefined => b
  | _ => a

/-- Property lookup on an object field list; absent keys give undefined. -/
def getFieldAux : List (String × JVal) → String → JVal
  | [], _ => .vUndefined
  | (k, v) :: fs, key => if k = key then v else getFieldAux fs key

/-- Property access `v.key`: undefined on non-objects (the adapter code
only reads named properties, never array indices). -/
def getField : JVal → String → JVal
  | .vObj fs, key => getFieldAux fs key
  | _, _ => .vUndefined

/-- Models the JavaScript `key in v` test on plain objects. -/
def hasField : JVal → String → Bool
  | .vObj fs, key => fs.any (fun p => p.1 = key)
  | _, _ => false

/-- Tests `v === s` for a string literal s. -/
def jvIsStrEq (v : JVal) (s : String) : Bool :=
  match v with
  | .vStr t => t = s
  | _ => false

/-- Tests `typeof v === "string"`. -/
def jvIsStr : JVal → Bool
  | .vStr _ => true
  | _ => false

/-- Tests `Array.isArray(v)`. -/
def jvIsArr : JVal → Bool
  | .vArr _ => true
  | _ => false

mutual

/-- String coercion `String(v)`, as JavaScript performs it on the value
shapes reachable in the adapter code. -/
def jsString : JVal → String
  | .vNull => "null"
  | .vUndefined => "undefined"
  | .vBool b => if b then "true" else "false"
  | .vNum n => toString n
  | .vStr s => s
  | .vObj _ => "[object Object]"
  | .vArr xs => String.intercalate "," (jsStringArrElems xs)

/-- Array elements under `String(...)`: null and undefined elements print
as the empty string. -/
def jsStringArrElems : List JVal → List String
  | [] => []
  | .vNull :: vs => "" :: jsStringArrElems vs
  | .vUndefined :: vs => "" :: jsStringArrElems vs
  | v :: vs => jsString v :: jsStringArrElems vs

end

/-- Escapes one character for a JSON string literal. -/
def jsonEscapeChar (c : Char) : String :=
  if c = '"' then "\\\""
  else if c = '\\' then "\\\\"
  else if c = '\n' then "\\n"
  else if c = '\t' then "\\t"
  else if c = '\r' then "\\r"
  else String.singleton c

/-- Quotes a string as a JSON string literal. -/
def jsonQuote (s : String) : String :=
  "\"" ++ String.join (s.toList.map jsonEscapeChar) ++ "\""

mutual

/-- Serialization of a defined value under `JSON.stringify`; inside an
array an undefined element serializes as null. -/
def jsonStr : JVal → String
  | .vNull => "null"
  | .vUndefined => "null"
  | .vBool b => if b then "true" else "false"
  | .vNum n => toString n
  | .vStr s => jsonQuote s
  | .vArr xs => "[" ++ String.intercalate "," (jsonStrElems xs) ++ "]"
  | .vObj fs => "\x7b" ++ String.intercalate "," (jsonStrFields fs) ++ "\x7d"

/-- Serializes array elements for `JSON.stringify`. -/
def jsonStrElems : List JVal → List String
  | [] => []
  | v :: vs => jsonStr v :: jsonStrElems vs

/-- Serializes object fields for `JSON.stringify`; fields holding
undefined are omitted. -/
def jsonStrFields : List (String × JVal) → List String
  | [] => []
  | (_, .vUndefined) :: fs => jsonStrFields fs
  | (k, v) :: fs => (jsonQuote k ++ ":" ++ jsonStr v) :: jsonStrFields fs

end

/-- Models `JSON.stringify(v)`: the JSON text as a string value, or
undefined when the argument is undefined. -/
def jsonStringify : JVal → JVal
  | .vUndefined => .vUndefined
  | v => .vStr (jsonStr v)

/-! ### Message adapter (`message-adapter.ts`)

Bidirectional conversion between the pi-agent-core AgentMessage shape and
the Mastra CoreMessage shape. The id generator of the source is
`mastra-$Date.now()-$++counter`; it is modelled by passing the clock
reading `now` and threading the module counter explicitly. -/

/-- Models `generateId()`: produces the fresh id and the updated module
counter. -/
def generateId (now : Nat) (counter : Nat) : String × Nat :=
  ("mastra-" ++ toString now ++ "-" ++ toString (counter + 1), counter + 1)

/-- Models `convertUserMessage` of message-adapter.ts. -/
def convertUserMessage (m : JVal) : JVal :=
  match getField m "content" with
  | .vStr s => .vObj [("role", .vStr "user"), ("content", .vStr s)]
  | .vArr blocks =>
      let parts := blocks.map (fun block =>
        if jvIsStrEq (getField block "type") "text" && jvIsStr (getField block "text") then
          JVal.vObj [("type", .vStr "text"), ("text", getField block "text")]
        else if jvIsStrEq (getField block "type") "image" && jvIsStr (getField block "data") then
          JVal.vObj [("type", .vStr "image"), ("image", getField block "data"),
                 ("mimeType", jvCoalesce (getField block "mimeType") (.vStr "image/jpeg"))]
        else
          JVal.vObj [("type", .vStr "text"), ("text", jsonStringify block)])
      .vObj [("role", .vStr "user"), ("content", .vArr parts)]
  | content => .vObj [("role", .vStr "user"),
      ("content", .vStr (jsString (jvCoalesce content (.vStr ""))))]

/-- Models the part-collecting loop of `convertAssistantMessage`,
threading the id-generator counter. -/
def convertAssistantParts (now : Nat) : List JVal → Nat → List JVal × Nat
  | [], c => ([], c)
  | block :: rest, c =>
    if jvIsStrEq (getField block "type") "text" && jvIsStr (getField block "text") then
      let (tl, c1) := convertAssistantParts now rest c
      (JVal.vObj [("type", .vStr "text"), ("text", getField block "text")] :: tl, c1)
    else if jvIsStrEq (getField block "type") "toolCall" ||
            jvIsStrEq (getField block "type") "tool_use" then
      let (tcid, c1) :=
        match jvCoalesce (getField block "toolCallId") (getField block "id") with
        | .vNull => let (g, c1) := generateId now c; (JVal.vStr g, c1)
        | .vUndefined => let (g, c1) := generateId now c; (JVal.vStr g, c1)
        | v => (v, c)
      let toolName := jvCoalesce (jvCoalesce (getField block "name")
        (getField block "toolName")) (.vStr "unknown")
      let args := jvCoalesce (jvCoalesce (getField block "input")
        (getField block "args")) (.vObj [])
      let (tl, c2) := convertAssistantParts now rest c1
      (JVal.vObj [("type", .vStr "tool-call"), ("toolCallId", tcid),
        ("toolName", toolName), ("args", args)] :: tl, c2)
    else if jvIsStr (getField block "text") then
      let (tl, c1) := convertAssistantParts now rest c
      (JVal.vObj [("type", .vStr "text"), ("text", getField block "text")] :: tl, c1)
    else
      convertAssistantParts now rest c

/-- Models `convertAssistantMessage` of message-adapter.ts. -/
def convertAssistantMessage (now : Nat) (m : JVal) (c : Nat) : JVal × Nat :=
  match getField m "content" with
  | .vStr s => (.vObj [("role", .vStr "assistant"), ("content", .vStr s)], c)
  | .vArr blocks =>
      let (parts, c1) := convertAssistantParts now blocks c
      if parts.length = 0 then
        (.vObj [("role", .vStr "assistant"), ("content", .vStr "")], c1)
      else (.vObj [("role", .vStr "assistant"), ("content", .vArr parts)], c1)
  | content => (.vObj [("role", .vStr "assistant"),
      ("content", .vStr (jsString (jvCoalesce content (.vStr ""))))], c)

/-- Models the block map of `convertToolMessage` for array content. -/
def convertToolResultParts (now : Nat) : List JVal → Nat → List JVal × Nat
  | [], c => ([], c)
  | block :: rest, c =>
      let (tcid, c1) :=
        match jvCoalesce (getField block "toolCallId") (getField block "toolUseId") with
        | .vNull => let (g, c1) := generateId now c; (JVal.vStr g, c1)
        | .vUndefined => let (g, c1) := generateId now c; (JVal.vStr g, c1)
        | v => (v, c)
      let toolName := jvCoalesce (getField block "toolName") (.vStr "unknown")
      let result := jvCoalesce (jvCoalesce (jvCoalesce (getField block "result")
        (getField block "content")) (getField block "text")) (.vStr "")
      let (tl, c2) := convertToolResultParts now rest c1
      (JVal.vObj [("type", .vStr "tool-result"), ("toolCallId", tcid),
        ("toolName", toolName), ("result", result)] :: tl, c2)

/-- Models `convertToolMessage` of message-adapter.ts. -/
def convertToolMessage (now : Nat) (m : JVal) (c : Nat) : JVal × Nat :=
  match getField m "content" with
  | .vArr blocks =>
      let (parts, c1) := convertToolResultParts now blocks c
      (.vObj [("role", .vStr "tool"), ("content", .vArr parts)], c1)
  | content =>
      let (g, c1) := generateId now c
      (.vObj [("role", .vStr "tool"), ("content", .vArr [
        .vObj [("type", .vStr "tool-result"), ("toolCallId", .vStr g),
               ("toolName", .vStr "unknown"),
               ("result", .vStr (jsString (jvCoalesce content (.vStr ""))))]])], c1)

/-- Models `toCoreMessages` of message-adapter.ts: converts AgentMessages
to CoreMessages, skipping non-object entries and unknown roles (system
messages are handled separately as agent instructions). -/
def toCoreMessages (now : Nat) : Nat → List JVal → List JVal × Nat
  | c, [] => ([], c)
  | c, msg :: rest =>
    if !jsTruthy msg || !jsIsObjType msg then toCoreMessages now c rest
    else if jvIsStrEq (getField msg "role") "user" then
      let hd := convertUserMessage msg
      let (tl, c1) := toCoreMessages now c rest
      (hd :: tl, c1)
    else if jvIsStrEq (getField msg "role") "assistant" then
      let (hd, c1) := convertAssistantMessage now msg c
      let (tl, c2) := toCoreMessages now c1 rest
      (hd :: tl, c2)
    else if jvIsStrEq (getField msg "role") "tool" then
      let (hd, c1) := convertToolMessage now msg c
      let (tl, c2) := toCoreMessages now c1 rest
      (hd :: tl, c2)
    else toCoreMessages now c rest

/-- Models `normalizeContentToString` of message-adapter.ts. -/
def normalizeContentToString (content : JVal) : String :=
  match content with
  | .vStr s => s
  | .vArr parts =>
      String.join (parts.map (fun part =>
        match part with
        | .vStr s => s
        | _ => if jsTruthy part && jsIsObjType part && hasField part "text"
               then jsString (getField part "text") else ""))
  | _ => ""

/-- Models `fromCoreMessage` of message-adapter.ts: converts a Mastra
CoreMessage back to the AgentMessage shape, null for unknown roles. -/
def fromCoreMessage (msg : JVal) : JVal :=
  if jvIsStrEq (getField msg "role") "user" then
    .vObj [("role", .vStr "user"),
           ("content", match getField msg "content" with
                       | .vStr s => JVal.vStr s
                       | content => JVal.vStr (normalizeContentToString content))]
  else if jvIsStrEq (getField msg "role") "assistant" then
    match getField msg "content" with
    | .vStr s => .vObj [("role", .vStr "assistant"), ("content", .vStr s)]
    | .vArr parts => .vObj [("role", .vStr "assistant"), ("content", .vArr parts)]
    | content => .vObj [("role", .vStr "assistant"),
        ("content", .vStr (jsString (jvCoalesce content (.vStr ""))))]
  else if jvIsStrEq (getField msg "role") "tool" then
    .vObj [("role", .vStr "tool"),
           ("content", match getField msg "content" with
                       | .vArr parts => JVal.vArr parts
                       | _ => JVal.vArr [])]
  else .vNull

/-! ### Draft message adapter (earlier `message-adapter.ts` revision)

The repository also carries an earlier revision of the message adapter
whose `toCoreMessages` strips system messages the same way; it is
embedded here under its own namespace. -/

namespace MessageAdapterDraft

/-- Models `normalizeUserContent` of the draft message adapter. -/
def normalizeUserContent (msg : JVal) : JVal :=
  match getField msg "content" with
  | .vStr s => .vStr s
  | .vArr blocks =>
      let parts := blocks.foldr (fun block acc =>
        if !jsTruthy block || !jsIsObjType block then acc
        else if jvIsStrEq (getField block "type") "text" &&
                jvIsStr (getField block "text") then
          JVal.vObj [("type", .vStr "text"), ("text", getField block "text")] :: acc
        else if jvIsStrEq (getField block "type") "image" then
          let src := getField block "source"
          let imageData := match src with
            | .vStr s => JVal.vStr s
            | _ => jvCoalesce (getField src "data") (.vStr "")
          let mimeType :=
            if jsIsObjType src && jsTruthy (getField src "mediaType") then
              getField src "mediaType"
            else JVal.vStr "image/jpeg"
          if jsTruthy imageData then
            JVal.vObj [("type", .vStr "image"), ("image", imageData),
              ("mimeType", mimeType)] :: acc
          else acc
        else acc) []
      if parts.length > 0 then .vArr parts else .vStr ""
  | content => .vStr (jsString (jvCoalesce content (.vStr "")))

/-- Models `normalizeAssistantContent` of the draft message adapter. -/
def normalizeAssistantContent (msg : JVal) : JVal :=
  match getField msg "content" with
  | .vStr s => .vStr s
  | .vArr blocks =>
      let parts := blocks.foldr (fun block acc =>
        if !jsTruthy block || !jsIsObjType block then acc
        else if jvIsStrEq (getField block "type") "text" &&
                jvIsStr (getField block "text") then
          JVal.vObj [("type", .vStr "text"), ("text", getField block "text")] :: acc
        else if jvIsStrEq (getField block "type") "toolCall" then
          JVal.vObj [("type", .vStr "tool-call"),
            ("toolCallId",
              if jvIsStr (getField block "id") then getField block "id"
              else .vStr ("call_" ++
                jsString (jvCoalesce (getField block "name") (.vStr "unknown")))),
            ("toolName",
              if jvIsStr (getField block "name") then getField block "name"
              else .vStr "unknown"),
            ("args", jvCoalesce (getField block "arguments") (.vObj []))] :: acc
        else acc) []
      if parts.length > 0 then .vArr parts else .vStr ""
  | content => .vStr (jsString (jvCoalesce content (.vStr "")))

/-- Models `normalizeToolContent` of the draft message adapter. -/
def normalizeToolContent (msg : JVal) : List JVal :=
  let toolCallId := jvCoalesce (getField msg "toolCallId")
    (jvCoalesce (getField msg "id") (.vStr "unknown"))
  let toolName := jvCoalesce (getField msg "toolName")
    (jvCoalesce (getField msg "name") (.vStr "unknown"))
  match getField msg "content" with
  | .vStr s => [.vObj [("type", .vStr "tool-result"),
      ("toolCallId", .vStr (jsString toolCallId)),
      ("toolName", .vStr (jsString toolName)), ("result", .vStr s)]]
  | .vArr blocks =>
      let texts := blocks.foldr (fun block acc =>
        if !jsTruthy block || !jsIsObjType block then acc
        else if jvIsStrEq (getField block "type") "text" &&
                jvIsStr (getField block "text") then
          jsString (getField block "text") :: acc
        else acc) []
      [.vObj [("type", .vStr "tool-result"),
        ("toolCallId", .vStr (jsString toolCallId)),
        ("toolName", .vStr (jsString toolName)),
        ("result", .vStr (String.intercalate "\n" texts))]]
  | _ => []

/-- Models `toCoreMessages` of the draft message adapter: system messages
are skipped here and passed separately as agent instructions. -/
def toCoreMessages : List JVal → List JVal
  | [] => []
  | msg :: rest =>
    if jvIsStrEq (getField msg "role") "user" then
      .vObj [("role", .vStr "user"), ("content", normalizeUserContent msg)] ::
        toCoreMessages rest
    else if jvIsStrEq (getField msg "role") "assistant" then
      .vObj [("role", .vStr "assistant"), ("content", normalizeAssistantContent msg)] ::
        toCoreMessages rest
    else if jvIsStrEq (getField msg "role") "tool" ||
            jvIsStrEq (getField msg "role") "toolResult" then
      let toolParts := normalizeToolContent msg
      if toolParts.length > 0 then
        .vObj [("role", .vStr "tool"), ("content", .vArr toolParts)] ::
          toCoreMessages rest
      else toCoreMessages rest
    else toCoreMessages rest

end MessageAdapterDraft

/-! ### Schema translator (`typebox-to-zod.ts`)

Zod schemas are modelled as an inductive datatype; `z.union([...])` is
the variadic union constructor applied to the member list,
`.optional()` and `.describe(...)` are wrappers. -/

/-- The Zod schemas produced by the translator. -/
inductive ZodSchema where
  | zUnknown
  | zString (minLength maxLength : Option Int) (pattern : Option String)
  | zNumber (isInt : Bool) (minimum maximum : Option Int)
  | zBoolean
  | zNull
  | zLiteral (v : JVal)
  | zEnum (values : List String)
  | zUnion (members : List ZodSchema)
  | zObject (shape : List (String × ZodSchema))
  | zArray (items : ZodSchema)
  | zOptional (inner : ZodSchema)
  | zDescribed (inner : ZodSchema) (description : JVal)
deriving Repr

/-- Models `Array.isArray(v) && v.length > 0`: the member list when v is
a nonempty array. -/
def asNonemptyArr : JVal → Option (List JVal)
  | .vArr (x :: xs) => some (x :: xs)
  | _ => none

/-- The string payload of a string value. -/
def jvAsStr : JVal → Option String
  | .vStr s => some s
  | _ => none

/-- Set membership test `new Set(required).has(key)` where required is
`Array.isArray(s.required) ? s.required : []`. -/
def requiredHas (req : JVal) (key : String) : Bool :=
  match req with
  | .vArr xs => xs.any (fun v => jvIsStrEq v key)
  | _ => false

/-- Entries of an array under `Object.entries`, keyed by index. -/
def arrEntries : Nat → List JVal → List (String × JVal)
  | _, [] => []
  | i, x :: xs => (toString i, x) :: arrEntries (i + 1) xs

/-- Models `Object.entries(v)` for the object-typed values reaching the
properties walk. -/
def jsEntries : JVal → List (String × JVal)
  | .vObj fs => fs
  | .vArr xs => arrEntries 0 xs
  | _ => []

/-- Union construction of the translator: a single converted member is
returned as-is, otherwise `z.union` is applied to all members in order. -/
def mkUnion : List ZodSchema → ZodSchema
  | [m] => m
  | ms => .zUnion ms

theorem sizeOf_getFieldAux_lt (fs : List (String × JVal)) (k : String)
    (h : getFieldAux fs k ≠ .vUndefined) : sizeOf (getFieldAux fs k) < sizeOf fs := by
  induction fs with
  | nil => exact absurd rfl h
  | cons p rest ih =>
    obtain ⟨k1, v⟩ := p
    by_cases hk : k1 = k
    · simp only [getFieldAux, if_pos hk]
      simp only [List.cons.sizeOf_spec, Prod.mk.sizeOf_spec]
      omega
    · simp only [getFieldAux, if_neg hk] at h ⊢
      have := ih h
      simp only [List.cons.sizeOf_spec]
      omega

theorem sizeOf_getField_lt (s : JVal) (k : String)
    (h : getField s k ≠ .vUndefined) : sizeOf (getField s k) < sizeOf s := by
  cases s <;> simp only [getField] at h ⊢ <;> try exact absurd rfl h
  case vObj fs =>
    have := sizeOf_getFieldAux_lt fs k h
    simp only [JVal.vObj.sizeOf_spec]
    omega

theorem asNonemptyArr_eq (v : JVal) (xs : List JVal)
    (h : asNonemptyArr v = some xs) : v = .vArr xs := by
  cases v with
  | vArr ys =>
    cases ys with
    | nil => simp [asNonemptyArr] at h
    | cons y ys => simp [asNonemptyArr] at h; rw [h]
  | vNull => simp [asNonemptyArr] at h
  | vUndefined => simp [asNonemptyArr] at h
  | vBool b => simp [asNonemptyArr] at h
  | vNum n => simp [asNonemptyArr] at h
  | vStr s => simp [asNonemptyArr] at h
  | vObj fs => simp [asNonemptyArr] at h

theorem jsTruthy_ne_undef (v : JVal) (h : jsTruthy v = true) : v ≠ .vUndefined := by
  intro hv; rw [hv] at h; simp [jsTruthy] at h

theorem sizeOf_mem_arr_lt (x : JVal) (xs : List JVal) (h : x ∈ xs) :
    sizeOf x < sizeOf (JVal.vArr xs) := by
  have := List.sizeOf_lt_of_mem h
  simp only [JVal.vArr.sizeOf_spec]
  omega

theorem mem_arrEntries (i : Nat) (xs : List JVal) (k : String) (v : JVal)
    (h : (k, v) ∈ arrEntries i xs) : v ∈ xs := by
  induction xs generalizing i with
  | nil => simp [arrEntries] at h
  | cons y ys ih =>
    simp only [arrEntries, List.mem_cons] at h
    rcases h with h | h
    · simp [Prod.ext_iff] at h
      simp [h.2]
    · exact List.mem_cons_of_mem y (ih (i + 1) h)

theorem sizeOf_mem_jsEntries_lt (p : JVal) (k : String) (v : JVal)
    (h : (k, v) ∈ jsEntries p) : sizeOf v < sizeOf p := by
  cases p with
  | vObj fs =>
    simp only [jsEntries] at h
    have h1 := List.sizeOf_lt_of_mem h
    simp only [Prod.mk.sizeOf_spec] at h1
    simp only [JVal.vObj.sizeOf_spec]
    omega
  | vArr xs =>
    simp only [jsEntries] at h
    have h1 := List.sizeOf_lt_of_mem (mem_arrEntries 0 xs k v h)
    simp only [JVal.vArr.sizeOf_spec]
    omega
  | vNull => simp [jsEntries] at h
  | vUndefined => simp [jsEntries] at h
  | vBool b => simp [jsEntries] at h
  | vNum n => simp [jsEntries] at h
  | vStr s => simp [jsEntries] at h

theorem sizeOf_jsEntries_chain (s : JVal) (key : String) (k : String) (v : JVal)
    (h : (k, v) ∈ jsEntries (getField s key)) : sizeOf v < sizeOf s := by
  have h1 := sizeOf_mem_jsEntries_lt _ k v h
  have h2 : getField s key ≠ .vUndefined := by
    intro hc; rw [hc] at h; simp [jsEntries] at h
  have h3 := sizeOf_getField_lt s key h2
  omega

theorem sizeOf_arr_field_chain (s : JVal) (key : String) (xs : List JVal) (x : JVal)
    (hA : asNonemptyArr (getField s key) = some xs) (hx : x ∈ xs) :
    sizeOf x < sizeOf s := by
  have hv := asNonemptyArr_eq _ _ hA
  have h1 := sizeOf_mem_arr_lt x xs hx
  rw [← hv] at h1
  have h2 := sizeOf_getField_lt s key (by rw [hv]; simp)
  omega

theorem sizeOf_truthy_field_lt (s : JVal) (key : String)
    (h : jsTruthy (getField s key) = true) : sizeOf (getField s key) < sizeOf s :=
  sizeOf_getField_lt s key (jsTruthy_ne_undef _ h)

/-- Models `typeboxToZod` of typebox-to-zod.ts: converts a TypeBox
TSchema value to a Zod schema, handling the common subset used by the
tools and falling back to `z.unknown()` for unsupported shapes. -/
def typeboxToZod (schema : JVal) : ZodSchema :=
  if !jsTruthy schema || !jsIsObjType schema then .zUnknown
  else
    match hA : asNonemptyArr (getField schema "anyOf") with
    | some xs => mkUnion (xs.attach.map fun m => typeboxToZod m.1)
    | none =>
    match hO : asNonemptyArr (getField schema "oneOf") with
    | some xs => mkUnion (xs.attach.map fun m => typeboxToZod m.1)
    | none =>
    match asNonemptyArr (getField schema "enum") with
    | some vs =>
        let stringEnums := vs.filterMap jvAsStr
        if stringEnums.length = vs.length && 1 ≤ stringEnums.length then
          .zEnum stringEnums
        else .zUnknown
    | none =>
    if hasField schema "const" then .zLiteral (getField schema "const")
    else if jvIsStrEq (getField schema "type") "object" then
      let shape :=
        if jsTruthy (getField schema "properties") &&
           jsIsObjType (getField schema "properties") then
          (jsEntries (getField schema "properties")).attach.map fun kv =>
            (kv.1.1,
             if requiredHas (getField schema "required") kv.1.1 then
               typeboxToZod kv.1.2
             else ZodSchema.zOptional (typeboxToZod kv.1.2))
        else []
      let obj := ZodSchema.zObject shape
      if jsTruthy (getField schema "description") then
        .zDescribed obj (getField schema "description")
      else obj
    else if jvIsStrEq (getField schema "type") "array" then
      let itemSchema :=
        if hi : jsTruthy (getField schema "items") then
          typeboxToZod (getField schema "items")
        else ZodSchema.zUnknown
      let arr := ZodSchema.zArray itemSchema
      if jsTruthy (getField schema "description") then
        .zDescribed arr (getField schema "description")
      else arr
    else if jvIsStrEq (getField schema "type") "string" then
      let minL := match getField schema "minLength" with | .vNum n => some n | _ => none
      let maxL := match getField schema "maxLength" with | .vNum n => some n | _ => none
      let pat := jvAsStr (getField schema "pattern")
      let str := ZodSchema.zString minL maxL pat
      if jsTruthy (getField schema "description") then
        .zDescribed str (getField schema "description")
      else str
    else if jvIsStrEq (getField schema "type") "number" ||
            jvIsStrEq (getField schema "type") "integer" then
      let num := ZodSchema.zNumber (jvIsStrEq (getField schema "type") "integer")
        (match getField schema "minimum" with | .vNum n => some n | _ => none)
        (match getField schema "maximum" with | .vNum n => some n | _ => none)
      if jsTruthy (getField schema "description") then
        .zDescribed num (getField schema "description")
      else num
    else if jvIsStrEq (getField schema "type") "boolean" then
      if jsTruthy (getField schema "description") then
        .zDescribed .zBoolean (getField schema "description")
      else .zBoolean
    else if jvIsStrEq (getField schema "type") "null" then .zNull
    else .zUnknown
termination_by sizeOf schema
decreasing_by
  · exact sizeOf_arr_field_chain schema "anyOf" xs m.1 hA m.2
  · exact sizeOf_arr_field_chain schema "oneOf" xs m.1 hO m.2
  · exact sizeOf_jsEntries_chain schema "properties" kv.1.1 kv.1.2 kv.2
  · exact sizeOf_jsEntries_chain schema "properties" kv.1.1 kv.1.2 kv.2
  · exact sizeOf_truthy_field_lt schema "items" hi

/-- Scanner for the modelled RegExp syntax check: tracks unescaped
parenthesis balance outside character classes and rejects dangling
escapes and unmatched closing parentheses. -/
def regexScan : List Char → Bool → Nat → Bool
  | [], inClass, depth => !inClass && depth = 0
  | c :: rest, inClass, depth =>
    if c = '\\' then
      match rest with
      | [] => false
      | _ :: rest2 => regexScan rest2 inClass depth
    else if inClass then
      if c = ']' then regexScan rest false depth else regexScan rest true depth
    else if c = '[' then regexScan rest true depth
    else if c = '(' then regexScan rest inClass (depth + 1)
    else if c = ')' then
      if depth = 0 then false else regexScan rest inClass (depth - 1)
    else regexScan rest inClass depth

/-- Modelled platform behavior of `new RegExp(pattern)`: the JavaScript
constructor throws a SyntaxError on syntactically invalid patterns. The
model is a conservative (partial) syntax check — unbalanced unescaped
group parentheses outside character classes, an unmatched closing
parenthesis, and a dangling trailing escape are invalid, as they are for
the real constructor. -/
def regexSyntaxOk (p : String) : Bool := regexScan p.toList false 0

/-- Models whether evaluating `typeboxToZod` on the given value throws:
the only throwing operation in its body is `new RegExp(s.pattern)` in the
string case, so the translation throws exactly when some reached string
node carries a syntactically invalid pattern. -/
def typeboxToZodThrows (schema : JVal) : Bool :=
  if !jsTruthy schema || !jsIsObjType schema then false
  else
    match hA : asNonemptyArr (getField schema "anyOf") with
    | some xs => xs.attach.any fun m => typeboxToZodThrows m.1
    | none =>
    match hO : asNonemptyArr (getField schema "oneOf") with
    | some xs => xs.attach.any fun m => typeboxToZodThrows m.1
    | none =>
    match asNonemptyArr (getField schema "enum") with
    | some _ => false
    | none =>
    if hasField schema "const" then false
    else if jvIsStrEq (getField schema "type") "object" then
      if jsTruthy (getField schema "properties") &&
         jsIsObjType (getField schema "properties") then
        (jsEntries (getField schema "properties")).attach.any fun kv =>
          typeboxToZodThrows kv.1.2
      else false
    else if jvIsStrEq (getField schema "type") "array" then
      if hi : jsTruthy (getField schema "items") then
        typeboxToZodThrows (getField schema "items")
      else false
    else if jvIsStrEq (getField schema "type") "string" then
      match jvAsStr (getField schema "pattern") with
      | some p => !regexSyntaxOk p
      | none => false
    else false
termination_by sizeOf schema
decreasing_by
  · exact sizeOf_arr_field_chain schema "anyOf" xs m.1 hA m.2
  · exact sizeOf_arr_field_chain schema "oneOf" xs m.1 hO m.2
  · exact sizeOf_jsEntries_chain schema "properties" kv.1.1 kv.1.2 kv.2
  · exact sizeOf_truthy_field_lt schema "items" hi

/-- Log lines emitted by one call of `typeboxToZod`: the source file
contains no logging statement at all (it imports only the zod library),
so every invocation emits no log line. -/
def typeboxToZodLogs (_schema : JVal) : List String := []

/-! ### Provider config resolver (`model-config.ts`)

Models `toMastraModelConfig`: the generic OpenAI-compatible descriptor is
one constructor, and the native `@ai-sdk` LanguageModelV1 transports
(Google, Bedrock) are provider-keyed constructors. Values read from
`process.env` are passed as explicit parameters. -/

/-- Parameters of `toMastraModelConfig`. -/
structure ModelConfigParams where
  provider : String
  modelId : String
  modelApi : String
  baseUrl : Option String
  apiKey : Option String
  headers : Option (List (String × String))
deriving Repr

/-- The resolved Mastra model config: either a generic OpenAI-compatible
descriptor or a native provider transport handle. -/
inductive MastraModelConfig where
  | openAICompatible (id : String) (url : Option String) (apiKey : Option String)
      (headers : Option (List (String × String)))
  | googleNative (modelId : String) (apiKey : String) (baseURL : Option String)
  | bedrockNative (modelId : String) (region : String)
deriving Repr

/-- Tests for the generic OpenAI-compatible descriptor form. -/
def isOpenAICompatibleConfig : MastraModelConfig → Bool
  | .openAICompatible _ _ _ _ => true
  | _ => false

/-- Models `resolveDefaultBaseUrl` of model-config.ts. -/
def resolveDefaultBaseUrl (api : String) : Option String :=
  if api = "anthropic-messages" then some "https://api.anthropic.com/v1"
  else if api = "openai-completions" || api = "openai-responses" ||
          api = "openai-codex-responses" then some "https://api.openai.com/v1"
  else if api = "google-generative-ai" then none
  else if api = "bedrock-converse-stream" then none
  else if api = "ollama" then some "http://localhost:11434/v1"
  else if api = "github-copilot" then some "https://api.githubcopilot.com"
  else none

/-- Models `toMastraModelConfig` of model-config.ts. `googleEnvApiKey`
and `awsRegionEnv` carry `process.env.GOOGLE_GENERATIVE_AI_API_KEY` and
`process.env.AWS_REGION`. -/
def toMastraModelConfig (params : ModelConfigParams)
    (googleEnvApiKey : Option String) (awsRegionEnv : Option String) :
    MastraModelConfig :=
  if params.modelApi = "google-generative-ai" then
    .googleNative params.modelId
      ((params.apiKey.or googleEnvApiKey).getD "") params.baseUrl
  else if params.modelApi = "bedrock-converse-stream" then
    .bedrockNative params.modelId (awsRegionEnv.getD "us-east-1")
  else
    let resolvedUrl := params.baseUrl.or (resolveDefaultBaseUrl params.modelApi)
    .openAICompatible (params.provider ++ "/" ++ params.modelId)
      (match resolvedUrl with
       | some s => if s = "" then none else some s
       | none => none)
      (match params.apiKey with
       | some s => if s = "" then none else some s
       | none => none)
      (match params.headers with
       | some hs => if hs.length > 0 then some hs else none
       | none => none)

/-! ### Tool adapter (`tool-adapter.ts`) -/

/-- A thrown JavaScript value: either an Error instance carrying a
message, or an arbitrary other value. -/
inductive JsError where
  | errorObj (message : String)
  | other (value : JVal)
deriving Repr

/-- The message extracted from a thrown value:
`err instanceof Error ? err.message : String(err)`. -/
def jsErrorMessage : JsError → String
  | .errorObj m => m
  | .other v => jsString v

/-- A pi-agent-core AgentTool. The source types `name` as a string;
it is carried as a JS value here so that the runtime name check of
`adaptToolsForMastra` is expressible. The executor either resolves with
a result value or rejects with a thrown value. -/
structure AgentTool where
  name : JVal
  description : JVal
  parameters : JVal
  execute : JVal → Except JsError JVal

/-- The adapted Mastra tool produced by `createTool`. -/
structure MastraTool where
  id : String
  description : String
  inputSchema : ZodSchema
  execute : JVal → JVal

/-- Models `normalizeToolResult` of tool-adapter.ts. -/
def normalizeToolResult (result : JVal) : JVal :=
  match result with
  | .vStr s => .vStr s
  | .vArr blocks =>
      let texts := blocks.map (fun block =>
        match block with
        | .vStr s => JVal.vStr s
        | _ =>
          if jvIsStrEq (getField block "type") "text" &&
             jvIsStr (getField block "text") then
            getField block "text"
          else jsonStringify block)
      let filtered := texts.filter jsTruthy
      .vStr (String.intercalate "\n" (filtered.map jsString))
  | .vObj fs =>
      if hasField (.vObj fs) "text" && jvIsStr (getField (.vObj fs) "text") then
        getField (.vObj fs) "text"
      else .vObj fs
  | v => .vStr (jsString (jvCoalesce v (.vStr "")))

/-- Models `adaptToolForMastra` of tool-adapter.ts: wraps the executor in
a try/catch that converts a thrown value into the string result
`Error: <message>`. -/
def adaptToolForMastra (tool : AgentTool) : MastraTool :=
  { id := jsString tool.name
    description := jsString (jvCoalesce tool.description tool.name)
    inputSchema := typeboxToZod (jvCoalesce tool.parameters
      (.vObj [("type", .vStr "object"), ("properties", .vObj [])]))
    execute := fun context =>
      match tool.execute context with
      | .ok result => normalizeToolResult result
      | .error err => .vStr ("Error: " ++ jsErrorMessage err) }

/-- Assignment `record[k] = v` on a JS object modelled as an entry list:
an existing entry for the key is overwritten in place, otherwise the
entry is appended. -/
def recordSet (r : List (String × MastraTool)) (k : String) (v : MastraTool) :
    List (String × MastraTool) :=
  if r.any (fun p => p.1 = k) then
    r.map (fun p => if p.1 = k then (k, v) else p)
  else r ++ [(k, v)]

/-- Lookup in the adapted tools record. -/
def recLookup : List (String × MastraTool) → String → Option MastraTool
  | [], _ => none
  | (k, v) :: r, key => if k = key then some v else recLookup r key

/-- The loop of `adaptToolsForMastra` with the record accumulator. -/
def adaptToolsForMastraGo :
    List AgentTool → List (String × MastraTool) → List (String × MastraTool)
  | [], acc => acc
  | tool :: rest, acc =>
    if !jsTruthy tool.name || !jvIsStr tool.name then
      adaptToolsForMastraGo rest acc
    else
      adaptToolsForMastraGo rest
        (recordSet acc (jsString tool.name) (adaptToolForMastra tool))

/-- Models `adaptToolsForMastra` of tool-adapter.ts: adapts an array of
AgentTools to a Mastra tools record, skipping tools whose name is empty
or not a string. -/
def adaptToolsForMastra (tools : List AgentTool) : List (String × MastraTool) :=
  adaptToolsForMastraGo tools []

/-! ### Run handle state (`runMastraLlmCall` of the agent runner)

The run-scoped mutable state captured by the closures of the returned
`MastraRunHandle`: the `streaming` flag, the `pendingMessages` queue, and
the session messages snapshot the engine call reads. -/

/-- The run-scoped state of `runMastraLlmCall`. -/
structure RunState where
  streaming : Bool
  pendingMessages : List String
  messages : List JVal
deriving Repr

/-- The state created at the top of `runMastraLlmCall`: not yet
streaming, empty pending queue. -/
def runMastraLlmCallInitState (msgs : List JVal) : RunState :=
  { streaming := false, pendingMessages := [], messages := msgs }

/-- Models `handle.queueMessage(text)`: while streaming, the text is
appended to the in-memory pending queue; otherwise the call is a no-op.
The method returns immediately in both cases (its body contains no
await). -/
def queueMessage (st : RunState) (text : String) : RunState :=
  if st.streaming then
    { st with pendingMessages := st.pendingMessages ++ [text] }
  else st

/-- Models `handle.isStreaming()`. -/
def isStreaming (st : RunState) : Bool := st.streaming

/-! ### Compaction (`compaction.ts`) -/

/-- Models `mastraGenerateSummary` of compaction.ts. The outcome of the
`agent.generate` model call (which can reject on abort, timeout or error)
is passed as `genOutcome`; a rejection is logged and rethrown, and the
function performs no session writes at all. When the converted history is
empty the model is never called and the empty summary is returned. -/
def mastraGenerateSummary (messages : List JVal) (now counter : Nat)
    (genOutcome : Except JsError JVal) : Except JsError JVal :=
  let coreMessages := (toCoreMessages now counter messages).1
  if coreMessages.length = 0 then .ok (.vStr "")
  else
    match genOutcome with
    | .ok result => .ok (jvCoalesce (getField result "text") (.vStr ""))
    | .error err => .error err

/-- The synthetic summary message prepended by compaction. -/
def summaryMessageFor (summaryText : JVal) : JVal :=
  .vObj [("role", .vStr "user"),
         ("content", .vStr ("[Conversation summary]\n" ++ jsString summaryText))]

/-- Modelled from the spec: the full compaction path of §4.7. Only the
summary-generation step (`mastraGenerateSummary`) is implemented in the
sources; the surrounding caller — computing `firstKeptIndex`, building
`[syntheticSummaryMessage, ...messages.slice(firstKeptIndex)]`, and
rewriting the persisted transcript atomically under the session write
lock — is missing from the source tree and is modelled here from the
spec's words. The persisted transcript is the state; the atomic
write-to-temp-then-rename rewrite is a single state replacement, so a
concurrent reader observes either the old transcript or the fully
rewritten one, never a partial write. -/
def mastraCompact (transcript : List JVal) (firstKeptIndex : Nat)
    (now counter : Nat) (genOutcome : Except JsError JVal) :
    List JVal × Except JsError (JVal × List JVal) :=
  match mastraGenerateSummary transcript now counter genOutcome with
  | .error err => (transcript, .error err)
  | .ok summaryText =>
      let compacted := summaryMessageFor summaryText ::
        transcript.drop firstKeptIndex
      (compacted, .ok (summaryText, compacted))

/-! ### Concrete fixtures used by the claim theorems and witnesses -/

/-- A user message whose content is a single-text-part array. -/
def userTextPartMessage : JVal :=
  .vObj [("role", .vStr "user"),
         ("content", .vArr [.vObj [("type", .vStr "text"), ("text", .vStr "hi")]])]

/-- A text content part in the shape both message models share. -/
def textPart (t : String) : JVal :=
  .vObj [("type", .vStr "text"), ("text", .vStr t)]

/-- A tool-result content part in the normalized engine shape. -/
def toolResultPart (tid tname res : String) : JVal :=
  .vObj [("type", .vStr "tool-result"), ("toolCallId", .vStr tid),
         ("toolName", .vStr tname), ("result", .vStr res)]

/-- A tool whose executor always rejects. -/
def failingTool : AgentTool :=
  { name := .vStr "failing_tool", description := .vStr "Always fails",
    parameters := .vObj [("type", .vStr "object"), ("properties", .vObj [])],
    execute := fun _ => .error (.errorObj "tool error") }

/-- A tool whose executor resolves with an n-character string. -/
def hugeResultTool (n : Nat) : AgentTool :=
  { name := .vStr "huge", description := .vUndefined, parameters := .vUndefined,
    execute := fun _ => .ok (.vStr (String.mk (List.replicate n 'a'))) }

/-- The last tool in input order whose name is a non-empty string equal
to the key: later duplicates take precedence over earlier ones. -/
def lastValidTool : List AgentTool → String → Option AgentTool
  | [], _ => none
  | t :: ts, key =>
    match lastValidTool ts key with
    | some u => some u
    | none =>
      if jsTruthy t.name && jvIsStr t.name && jvIsStrEq t.name key then some t
      else none

/-! ### Helper lemmas -/

theorem length_filterMap_lt {α β : Type} (f : α → Option β) (l : List α) (x : α)
    (hx : x ∈ l) (hfx : f x = none) : (l.filterMap f).length < l.length := by
  induction l with
  | nil => cases hx
  | cons a l ih =>
    rw [List.filterMap_cons]
    rcases List.mem_cons.mp hx with rfl | hmem
    · rw [hfx]
      have := List.length_filterMap_le f l
      simp only [List.length_cons]
      omega
    · cases hfa : f a with
      | none =>
        have := ih hmem
        simp only [List.length_cons]
        omega
      | some b =>
        have := ih hmem
        simp only [List.length_cons]
        omega

theorem mkUnion_of_length_ne_one (ms : List ZodSchema) (h : ms.length ≠ 1) :
    mkUnion ms = .zUnion ms := by
  cases ms with
  | nil => rfl
  | cons a t =>
    cases t with
    | nil => simp at h
    | cons b t2 => rfl

theorem typeboxToZod_anyOf_eq (schema : JVal) (xs : List JVal)
    (h1 : jsTruthy schema = true) (h2 : jsIsObjType schema = true)
    (hA : asNonemptyArr (getField schema "anyOf") = some xs) :
    typeboxToZod schema = mkUnion (xs.map typeboxToZod) := by
  rw [typeboxToZod.eq_def]
  simp only [h1, h2, Bool.not_true, Bool.or_self, Bool.false_or, Bool.false_eq_true,
    if_false]
  split
  next xs2 heq =>
    rw [heq] at hA
    rw [Option.some.inj hA] at *
    rw [List.attach_map_coe]
  next heq =>
    rw [heq] at hA
    exact Option.noConfusion hA

theorem typeboxToZod_oneOf_eq (schema : JVal) (xs : List JVal)
    (h1 : jsTruthy schema = true) (h2 : jsIsObjType schema = true)
    (hA : asNonemptyArr (getField schema "anyOf") = none)
    (hO : asNonemptyArr (getField schema "oneOf") = some xs) :
    typeboxToZod schema = mkUnion (xs.map typeboxToZod) := by
  rw [typeboxToZod.eq_def]
  simp only [h1, h2, Bool.not_true, Bool.or_self, Bool.false_or, Bool.false_eq_true,
    if_false]
  split
  next xs2 heq =>
    rw [heq] at hA
    exact Option.noConfusion hA
  next heq =>
    split
    next xs2 heq2 =>
      rw [heq2] at hO
      rw [Option.some.inj hO] at *
      rw [List.attach_map_coe]
    next heq2 =>
      rw [heq2] at hO
      exact Option.noConfusion hO

theorem typeboxToZod_enum_nonstring (vs : List JVal) (x : JVal)
    (hx : x ∈ vs) (hxn : jvAsStr x = none) :
    typeboxToZod (.vObj [("enum", .vArr vs)]) = .zUnknown := by
  cases vs with
  | nil => cases hx
  | cons v vs2 =>
    have hlt := length_filterMap_lt jvAsStr (v :: vs2) x hx hxn
    have hne : (List.filterMap jvAsStr (v :: vs2)).length ≠ (v :: vs2).length :=
      Nat.ne_of_lt hlt
    rw [typeboxToZod.eq_def]
    simp [getField, getFieldAux, jsTruthy, jsIsObjType, asNonemptyArr, hne]
    intro h
    exact absurd h (by simpa using hne)

theorem typeboxToZod_unknown_type (t : String)
    (h1 : t ≠ "object") (h2 : t ≠ "array") (h3 : t ≠ "string") (h4 : t ≠ "number")
    (h5 : t ≠ "integer") (h6 : t ≠ "boolean") (h7 : t ≠ "null") :
    typeboxToZod (.vObj [("type", .vStr t)]) = .zUnknown := by
  rw [typeboxToZod.eq_def]
  simp [getField, getFieldAux, jsTruthy, jsIsObjType, asNonemptyArr, hasField,
    jvIsStrEq, h1, h2, h3, h4, h5, h6, h7]

theorem typeboxToZod_pattern_ok (p : String) (hp : regexSyntaxOk p = true) :
    typeboxToZod (.vObj [("type", .vStr "string"), ("pattern", .vStr p)]) =
      .zString none none (some p) ∧
    typeboxToZodThrows (.vObj [("type", .vStr "string"), ("pattern", .vStr p)]) =
      false := by
  constructor
  · rw [typeboxToZod.eq_def]
    simp [getField, getFieldAux, jsTruthy, jsIsObjType, asNonemptyArr, hasField,
      jvIsStrEq, jvAsStr]
  · rw [typeboxToZodThrows.eq_def]
    simp [getField, getFieldAux, jsTruthy, jsIsObjType, asNonemptyArr, hasField,
      jvIsStrEq, jvAsStr, hp]

theorem convertUserMessage_role (m : JVal) :
    getField (convertUserMessage m) "role" = .vStr "user" := by
  unfold convertUserMessage
  split <;> rfl

theorem convertAssistantMessage_role (now : Nat) (m : JVal) (c : Nat) :
    getField (convertAssistantMessage now m c).1 "role" = .vStr "assistant" := by
  unfold convertAssistantMessage
  split
  · rfl
  · dsimp only
    split <;> rfl
  · rfl

theorem convertToolMessage_role (now : Nat) (m : JVal) (c : Nat) :
    getField (convertToolMessage now m c).1 "role" = .vStr "tool" := by
  unfold convertToolMessage
  split <;> rfl

theorem toCoreMessages_all_roles (now : Nat) :
    ∀ (msgs : List JVal) (c : Nat),
      ((toCoreMessages now c msgs).1.all
        (fun m => !(jvIsStrEq (getField m "role") "system"))) = true := by
  intro msgs
  induction msgs with
  | nil => intro c; rfl
  | cons msg rest ih =>
    intro c
    rw [toCoreMessages]
    split
    · exact ih c
    · split
      · have hall := ih c
        cases htl : toCoreMessages now c rest with
        | mk tl c1 =>
          rw [htl] at hall
          simp only [htl]
          simp [List.all_cons, convertUserMessage_role, jvIsStrEq]
          simpa using hall
      · split
        · have hrole := convertAssistantMessage_role now msg c
          cases hhd : convertAssistantMessage now msg c with
          | mk hd c1 =>
            rw [hhd] at hrole
            cases htl : toCoreMessages now c1 rest with
            | mk tl c2 =>
              have hall2 := ih c1
              rw [htl] at hall2
              simp only [hhd, htl]
              simp [List.all_cons, hrole, jvIsStrEq]
              simpa using hall2
        · split
          · have hrole := convertToolMessage_role now msg c
            cases hhd : convertToolMessage now msg c with
            | mk hd c1 =>
              rw [hhd] at hrole
              cases htl : toCoreMessages now c1 rest with
              | mk tl c2 =>
                have hall2 := ih c1
                rw [htl] at hall2
                simp only [hhd, htl]
                simp [List.all_cons, hrole, jvIsStrEq]
                simpa using hall2
          · exact ih c

theorem draft_toCoreMessages_all_roles :
    ∀ (msgs : List JVal),
      (MessageAdapterDraft.toCoreMessages msgs).all
        (fun m => !(jvIsStrEq (getField m "role") "system")) = true := by
  intro msgs
  induction msgs with
  | nil => rfl
  | cons msg rest ih =>
    rw [MessageAdapterDraft.toCoreMessages]
    split
    · simp [List.all_cons, jvIsStrEq, getField, getFieldAux]
      simpa using ih
    · split
      · simp [List.all_cons, jvIsStrEq, getField, getFieldAux]
        simpa using ih
      · split
        · dsimp only
          split
          · simp [List.all_cons, jvIsStrEq, getField, getFieldAux]
            simpa using ih
          · exact ih
        · exact ih

theorem recLookup_append (r s : List (String × MastraTool)) (key : String) :
    recLookup (r ++ s) key =
      match recLookup r key with
      | some w => some w
      | none => recLookup s key := by
  induction r with
  | nil => rfl
  | cons p rest ih =>
    obtain ⟨k1, v1⟩ := p
    by_cases h : k1 = key <;> simp [recLookup, h, ih]

theorem recLookup_none_of_not_any (r : List (String × MastraTool)) (k : String)
    (h : r.any (fun p => p.1 = k) = false) : recLookup r k = none := by
  induction r with
  | nil => rfl
  | cons p rest ih =>
    obtain ⟨k1, v1⟩ := p
    simp only [List.any_cons, Bool.or_eq_false_iff] at h
    have hne : k1 ≠ k := by simpa using h.1
    simp [recLookup, hne, ih h.2]

theorem recLookup_map_ne (r : List (String × MastraTool)) (k : String) (v : MastraTool)
    (key : String) (hne : k ≠ key) :
    recLookup (r.map fun p => if p.1 = k then (k, v) else p) key = recLookup r key := by
  induction r with
  | nil => rfl
  | cons p rest ih =>
    obtain ⟨k1, v1⟩ := p
    simp only [List.map_cons]
    by_cases h : k1 = k
    · rw [if_pos (show (k1, v1).1 = k from h)]
      simp only [recLookup]
      rw [if_neg hne, if_neg (show ¬(k1 = key) from fun hc => hne (h.symm.trans hc))]
      exact ih
    · rw [if_neg (show ¬((k1, v1).1 = k) from h)]
      simp only [recLookup]
      by_cases hk1 : k1 = key
      · rw [if_pos hk1, if_pos hk1]
      · rw [if_neg hk1, if_neg hk1]
        exact ih

theorem recLookup_map_set_self (r : List (String × MastraTool)) (k : String)
    (v : MastraTool) (hany : r.any (fun p => p.1 = k) = true) :
    recLookup (r.map fun p => if p.1 = k then (k, v) else p) k = some v := by
  induction r with
  | nil => simp at hany
  | cons p rest ih =>
    obtain ⟨k1, v1⟩ := p
    simp only [List.map_cons]
    by_cases h : k1 = k
    · rw [if_pos (show (k1, v1).1 = k from h)]
      simp only [recLookup]
      simp
    · rw [if_neg (show ¬((k1, v1).1 = k) from h)]
      simp only [recLookup]
      rw [if_neg h]
      simp only [List.any_cons] at hany
      have hr : rest.any (fun p => p.1 = k) = true := by simpa [h] using hany
      exact ih hr

theorem recLookup_recordSet (r : List (String × MastraTool)) (k : String)
    (v : MastraTool) (key : String) :
    recLookup (recordSet r k v) key = if k = key then some v else recLookup r key := by
  unfold recordSet
  split
  next hany =>
    by_cases hkey : k = key
    · subst hkey; simp [recLookup_map_set_self r k v hany]
    · simp [recLookup_map_ne r k v key hkey, hkey]
  next hany =>
    have hfalse : r.any (fun p => p.1 = k) = false := by
      cases hb : r.any (fun p => p.1 = k)
      · rfl
      · exact absurd hb hany
    have hnone := recLookup_none_of_not_any r k hfalse
    rw [recLookup_append]
    by_cases hkey : k = key
    · subst hkey; simp [hnone, recLookup]
    · cases hl : recLookup r key with
      | some w => simp [hl, hkey]
      | none => simp [hl, recLookup, hkey]

theorem map_fst_recordSet (r : List (String × MastraTool)) (k : String) (v : MastraTool) :
    (recordSet r k v).map Prod.fst =
      if r.any (fun p => p.1 = k) then r.map Prod.fst
      else r.map Prod.fst ++ [k] := by
  unfold recordSet
  split
  next hany =>
    rw [List.map_map]
    apply List.map_congr_left
    intro p _
    simp only [Function.comp_apply]
    by_cases h : p.1 = k
    · rw [if_pos h]
      exact h.symm
    · rw [if_neg h]
  next hany =>
    simp

theorem nodup_keys_recordSet (r : List (String × MastraTool)) (k : String)
    (v : MastraTool) (hnd : (r.map Prod.fst).Nodup) :
    ((recordSet r k v).map Prod.fst).Nodup := by
  rw [map_fst_recordSet]
  split
  · exact hnd
  next hany =>
    have hk : k ∉ r.map Prod.fst := by
      intro hmem
      apply hany
      rw [List.any_eq_true]
      obtain ⟨p, hp, hpk⟩ := List.mem_map.mp hmem
      exact ⟨p, hp, by simp [hpk]⟩
    simp [List.nodup_append, hnd, hk]

theorem adaptGo_nodup (ts : List AgentTool) :
    ∀ acc, ((acc.map Prod.fst).Nodup) →
      ((adaptToolsForMastraGo ts acc).map Prod.fst).Nodup := by
  induction ts with
  | nil => intro acc h; exact h
  | cons t ts ih =>
    intro acc h
    unfold adaptToolsForMastraGo
    split
    · exact ih acc h
    · exact ih _ (nodup_keys_recordSet _ _ _ h)

theorem adaptGo_lookup (key : String) :
    ∀ (ts : List AgentTool) (acc : List (String × MastraTool)),
      recLookup (adaptToolsForMastraGo ts acc) key =
        match lastValidTool ts key with
        | some u => some (adaptToolForMastra u)
        | none => recLookup acc key := by
  intro ts
  induction ts with
  | nil => intro acc; rfl
  | cons t ts ih =>
    intro acc
    unfold adaptToolsForMastraGo lastValidTool
    split
    next hinv =>
      rw [ih acc]
      cases hl : lastValidTool ts key with
      | some u => simp [hl]
      | none =>
        have hc : (jsTruthy t.name && jvIsStr t.name && jvIsStrEq t.name key) = false := by
          rcases h1 : jsTruthy t.name <;> rcases h2 : jvIsStr t.name <;>
            simp [h1, h2] at hinv ⊢
        simp [hl, hc]
    next hvalid =>
      have hj : jsTruthy t.name = true := by
        rcases h1 : jsTruthy t.name <;> simp [h1] at hvalid ⊢
      have hs : jvIsStr t.name = true := by
        rcases h2 : jvIsStr t.name <;> simp [h2] at hvalid ⊢
      rw [ih _]
      cases hl : lastValidTool ts key with
      | some u => simp [hl]
      | none =>
        simp only [hl]
        rw [recLookup_recordSet]
        cases hn : t.name with
        | vStr s =>
          rw [hn] at hj
          by_cases hsk : s = key
          · subst hsk
            simp [hn, jsString, jvIsStrEq, jvIsStr, hj]
          · simp [hn, jsString, jvIsStrEq, jvIsStr, hsk]
        | vNull => rw [hn] at hs; simp [jvIsStr] at hs
        | vUndefined => rw [hn] at hs; simp [jvIsStr] at hs
        | vBool b => rw [hn] at hs; simp [jvIsStr] at hs
        | vNum n => rw [hn] at hs; simp [jvIsStr] at hs
        | vArr xs => rw [hn] at hs; simp [jvIsStr] at hs
        | vObj fs => rw [hn] at hs; simp [jvIsStr] at hs

theorem convertToolResultParts_normalized (now : Nat) :
    ∀ (trips : List (String × String × String)) (c : Nat),
      convertToolResultParts now (trips.map fun x => toolResultPart x.1 x.2.1 x.2.2) c =
        (trips.map fun x => toolResultPart x.1 x.2.1 x.2.2, c) := by
  intro trips
  induction trips with
  | nil => intro c; rfl
  | cons t ts ih =>
    intro c
    obtain ⟨tid, tname, res⟩ := t
    have hcons :
        convertToolResultParts now
          (toolResultPart tid tname res ::
            ts.map fun x => toolResultPart x.1 x.2.1 x.2.2) c =
        ((toolResultPart tid tname res) ::
          (convertToolResultParts now
            (ts.map fun x => toolResultPart x.1 x.2.1 x.2.2) c).1,
         (convertToolResultParts now
           (ts.map fun x => toolResultPart x.1 x.2.1 x.2.2) c).2) :=
      rfl
    simp only [List.map_cons, hcons, ih c]

theorem convertAssistantParts_textParts (now : Nat) :
    ∀ (texts : List String) (c : Nat),
      convertAssistantParts now (texts.map textPart) c = (texts.map textPart, c) := by
  intro texts
  induction texts with
  | nil => intro c; rfl
  | cons t ts ih =>
    intro c
    have hcons :
        convertAssistantParts now (textPart t :: ts.map textPart) c =
        ((textPart t) :: (convertAssistantParts now (ts.map textPart) c).1,
         (convertAssistantParts now (ts.map textPart) c).2) := rfl
    simp only [List.map_cons, hcons, ih c]

theorem assistant_textParts_roundtrip (now c : Nat) (t0 : String) (texts : List String) :
    fromCoreMessage ((toCoreMessages now c
      [.vObj [("role", .vStr "assistant"),
              ("content", .vArr ((t0 :: texts).map textPart))]]).1.headD .vNull) =
      .vObj [("role", .vStr "assistant"),
             ("content", .vArr ((t0 :: texts).map textPart))] := by
  have hp := convertAssistantParts_textParts now (t0 :: texts) c
  have hm :
      convertAssistantMessage now
        (.vObj [("role", .vStr "assistant"),
                ("content", .vArr ((t0 :: texts).map textPart))]) c =
      (.vObj [("role", .vStr "assistant"),
              ("content", .vArr ((t0 :: texts).map textPart))], c) := by
    simp only [convertAssistantMessage]
    rw [show getField (.vObj [("role", JVal.vStr "assistant"),
        ("content", JVal.vArr ((t0 :: texts).map textPart))]) "content" =
        JVal.vArr ((t0 :: texts).map textPart) from rfl]
    simp only [List.map_cons] at hp ⊢
    rw [hp]
    simp
  have ht : toCoreMessages now c
      [.vObj [("role", .vStr "assistant"),
              ("content", .vArr ((t0 :: texts).map textPart))]] =
      ([.vObj [("role", .vStr "assistant"),
               ("content", .vArr ((t0 :: texts).map textPart))]], c) := by
    rw [toCoreMessages]
    simp only [jsTruthy, jsIsObjType, Bool.not_true, Bool.or_self, Bool.false_eq_true,
      if_false]
    rw [show jvIsStrEq (getField (.vObj [("role", JVal.vStr "assistant"),
        ("content", JVal.vArr ((t0 :: texts).map textPart))]) "role") "user" =
        false from rfl]
    rw [show jvIsStrEq (getField (.vObj [("role", JVal.vStr "assistant"),
        ("content", JVal.vArr ((t0 :: texts).map textPart))]) "role") "assistant" =
        true from rfl]
    simp only [Bool.false_eq_true, if_false, if_true, hm]
    rfl
  rw [ht]
  rfl

theorem tool_normalizedParts_roundtrip (now c : Nat)
    (trips : List (String × String × String)) :
    fromCoreMessage ((toCoreMessages now c
      [.vObj [("role", .vStr "tool"),
              ("content", .vArr (trips.map fun x =>
                toolResultPart x.1 x.2.1 x.2.2))]]).1.headD .vNull) =
      .vObj [("role", .vStr "tool"),
             ("content", .vArr (trips.map fun x =>
               toolResultPart x.1 x.2.1 x.2.2))] := by
  have hp := convertToolResultParts_normalized now trips c
  have hm :
      convertToolMessage now
        (.vObj [("role", .vStr "tool"),
                ("content", .vArr (trips.map fun x =>
                  toolResultPart x.1 x.2.1 x.2.2))]) c =
      (.vObj [("role", .vStr "tool"),
              ("content", .vArr (trips.map fun x =>
                toolResultPart x.1 x.2.1 x.2.2))], c) := by
    simp only [convertToolMessage]
    rw [show getField (.vObj [("role", JVal.vStr "tool"),
        ("content", JVal.vArr (trips.map fun x => toolResultPart x.1 x.2.1 x.2.2))])
        "content" =
        JVal.vArr (trips.map fun x => toolResultPart x.1 x.2.1 x.2.2) from rfl]
    dsimp only
    rw [hp]
  have ht : toCoreMessages now c
      [.vObj [("role", .vStr "tool"),
              ("content", .vArr (trips.map fun x =>
                toolResultPart x.1 x.2.1 x.2.2))]] =
      ([.vObj [("role", .vStr "tool"),
               ("content", .vArr (trips.map fun x =>
                 toolResultPart x.1 x.2.1 x.2.2))]], c) := by
    rw [toCoreMessages]
    simp only [jsTruthy, jsIsObjType, Bool.not_true, Bool.or_self, Bool.false_eq_true,
      if_false]
    rw [show jvIsStrEq (getField (.vObj [("role", JVal.vStr "tool"),
        ("content", JVal.vArr (trips.map fun x => toolResultPart x.1 x.2.1 x.2.2))])
        "role") "user" = false from rfl]
    rw [show jvIsStrEq (getField (.vObj [("role", JVal.vStr "tool"),
        ("content", JVal.vArr (trips.map fun x => toolResultPart x.1 x.2.1 x.2.2))])
        "role") "assistant" = false from rfl]
    rw [show jvIsStrEq (getField (.vObj [("role", JVal.vStr "tool"),
        ("content", JVal.vArr (trips.map fun x => toolResultPart x.1 x.2.1 x.2.2))])
        "role") "tool" = true from rfl]
    simp only [Bool.false_eq_true, if_false, if_true, hm]
    rfl
  rw [ht]
  rfl

/-! ### Claim theorems -/

/-- C1: the claim states that a resolution call with modelApi
anthropic-messages returns a native-transport descriptor keyed by the
provider, not a generic descriptor of the form id/url/apiKey/headers.
The implemented `toMastraModelConfig` instead returns exactly that
generic OpenAI-compatible descriptor for anthropic-messages (with the
default base URL https://api.anthropic.com/v1); only the Google and
Bedrock APIs are routed to native transports. This theorem evaluates the
code at the failing inputs. -/
theorem toMastraModelConfig_anthropic_generic :
    ∀ (provider modelId apiKey : String) (genv renv : Option String),
      toMastraModelConfig
        ⟨provider, modelId, "anthropic-messages", none, some apiKey, none⟩ genv renv =
        .openAICompatible (provider ++ "/" ++ modelId)
          (some "https://api.anthropic.com/v1")
          (if apiKey = "" then none else some apiKey) none ∧
      isOpenAICompatibleConfig
        (toMastraModelConfig
          ⟨provider, modelId, "anthropic-messages", none, some apiKey, none⟩ genv renv) =
        true := by
  intro provider modelId apiKey genv renv
  exact ⟨rfl, rfl⟩

/-- C2 counterexample: a user message whose content is a single text
part — a role allowed by the claim, with no reasoning parts — does not
round-trip: `fromCoreMessage` collapses the part array into a plain
string, so the result differs from the original message. -/
theorem message_roundtrip_counterexample :
    fromCoreMessage ((toCoreMessages 0 0 [userTextPartMessage]).1.headD .vNull) =
      .vObj [("role", .vStr "user"), ("content", .vStr "hi")] ∧
    JVal.vObj [("role", .vStr "user"), ("content", .vStr "hi")] ≠
      userTextPartMessage := by
  constructor
  · rfl
  · intro h
    have h2 := congrArg (fun v => getField v "content") h
    simp [userTextPartMessage, getField, getFieldAux] at h2

/-- C2 (amended): the round trip
`fromCoreMessage (toCoreMessages [m]).head` reproduces m exactly for
every user and assistant message whose content is a plain string, every
assistant message whose content is a nonempty array of text parts, and
every tool message whose content is an array (of any length) of
normalized tool-result parts; the original universal claim fails because
other part arrays are normalized rather than preserved, e.g. a user
message's text parts are concatenated into a plain string. -/
theorem message_roundtrip_string_content :
    ∀ (s t0 : String) (texts : List String)
      (trips : List (String × String × String)) (now c : Nat),
      fromCoreMessage ((toCoreMessages now c
        [.vObj [("role", .vStr "user"), ("content", .vStr s)]]).1.headD .vNull) =
        .vObj [("role", .vStr "user"), ("content", .vStr s)] ∧
      fromCoreMessage ((toCoreMessages now c
        [.vObj [("role", .vStr "assistant"), ("content", .vStr s)]]).1.headD .vNull) =
        .vObj [("role", .vStr "assistant"), ("content", .vStr s)] ∧
      fromCoreMessage ((toCoreMessages now c
        [.vObj [("role", .vStr "assistant"),
                ("content", .vArr ((t0 :: texts).map textPart))]]).1.headD .vNull) =
        .vObj [("role", .vStr "assistant"),
               ("content", .vArr ((t0 :: texts).map textPart))] ∧
      fromCoreMessage ((toCoreMessages now c
        [.vObj [("role", .vStr "tool"),
                ("content", .vArr (trips.map fun x =>
                  toolResultPart x.1 x.2.1 x.2.2))]]).1.headD .vNull) =
        .vObj [("role", .vStr "tool"),
               ("content", .vArr (trips.map fun x =>
                 toolResultPart x.1 x.2.1 x.2.2))] :=
  fun s t0 texts trips now c =>
    ⟨rfl, rfl, assistant_textParts_roundtrip now c t0 texts,
     tool_normalizedParts_roundtrip now c trips⟩

/-- C3 counterexample: the claim fails on two points. A string schema
with pattern "(" makes `typeboxToZod` throw (the `new RegExp` call
rejects the invalid pattern), so not every input yields a schema without
throwing; and a non-string enum degrades to the unconstrained leaf with
no logged fidelity loss, because the translator source contains no
logging statement. -/
theorem typeboxToZod_claim_counterexample :
    typeboxToZodThrows (.vObj [("type", .vStr "string"), ("pattern", .vStr "(")]) =
      true ∧
    regexSyntaxOk "(" = false ∧
    typeboxToZod (.vObj [("enum", .vArr [.vNum 1, .vNum 2])]) = .zUnknown ∧
    typeboxToZodLogs (.vObj [("enum", .vArr [.vNum 1, .vNum 2])]) = [] := by
  refine ⟨?_, rfl, ?_, rfl⟩
  · rw [typeboxToZodThrows.eq_def]
    simp [getField, getFieldAux, jsTruthy, jsIsObjType, asNonemptyArr, hasField,
      jvIsStrEq, jvAsStr, regexSyntaxOk, regexScan]
  · rw [typeboxToZod.eq_def]
    simp [getField, getFieldAux, jsTruthy, jsIsObjType, asNonemptyArr]
    intro h
    simp [jvAsStr] at h

/-- C3 (amended): `typeboxToZod` degrades silently — with no logged
fidelity loss — to the unconstrained `z.unknown()` leaf on null and
non-object inputs, unknown node types, and enums containing a non-string
value; it returns a usable schema without throwing for every input
except a string schema whose pattern is not a valid regular expression,
where the `new RegExp` call throws. -/
theorem typeboxToZod_total_degradation :
    ∀ (t p : String) (vs : List JVal) (x : JVal) (n : Int) (b : Bool),
      typeboxToZod .vNull = .zUnknown ∧
      typeboxToZod .vUndefined = .zUnknown ∧
      typeboxToZod (.vStr t) = .zUnknown ∧
      typeboxToZod (.vNum n) = .zUnknown ∧
      typeboxToZod (.vBool b) = .zUnknown ∧
      (t ≠ "object" → t ≠ "array" → t ≠ "string" → t ≠ "number" → t ≠ "integer" →
        t ≠ "boolean" → t ≠ "null" →
        typeboxToZod (.vObj [("type", .vStr t)]) = .zUnknown) ∧
      (x ∈ vs → jvAsStr x = none →
        typeboxToZod (.vObj [("enum", .vArr vs)]) = .zUnknown) ∧
      typeboxToZodLogs (.vObj [("enum", .vArr vs)]) = [] ∧
      (regexSyntaxOk p = true →
        typeboxToZod (.vObj [("type", .vStr "string"), ("pattern", .vStr p)]) =
          .zString none none (some p) ∧
        typeboxToZodThrows (.vObj [("type", .vStr "string"), ("pattern", .vStr p)]) =
          false) := by
  intro t p vs x n b
  refine ⟨?_, ?_, ?_, ?_, ?_, ?_, ?_, rfl, ?_⟩
  · rw [typeboxToZod.eq_def]; rfl
  · rw [typeboxToZod.eq_def]; rfl
  · rw [typeboxToZod.eq_def]; simp [jsIsObjType]
  · rw [typeboxToZod.eq_def]; simp [jsIsObjType]
  · rw [typeboxToZod.eq_def]; simp [jsIsObjType]
  · intro h1 h2 h3 h4 h5 h6 h7
    exact typeboxToZod_unknown_type t h1 h2 h3 h4 h5 h6 h7
  · intro hx hxn
    exact typeboxToZod_enum_nonstring vs x hx hxn
  · intro hp
    exact typeboxToZod_pattern_ok p hp

/-- C3 witness: the amended degradation theorem applied at concrete
inputs — an unsupported node type, a non-string enum, and a string
schema with a valid pattern. -/
theorem typeboxToZod_total_degradation_witness :
    typeboxToZod (.vObj [("type", .vStr "unsupported-type")]) = .zUnknown ∧
    typeboxToZod (.vObj [("enum", .vArr [.vNum 1])]) = .zUnknown ∧
    typeboxToZodLogs (.vObj [("enum", .vArr [.vNum 1])]) = [] ∧
    typeboxToZod (.vObj [("type", .vStr "string"), ("pattern", .vStr "[a-z]+")]) =
      .zString none none (some "[a-z]+") :=
  ⟨(typeboxToZod_total_degradation "unsupported-type" "" [] .vNull 0 false).2.2.2.2.2.1
      (by decide) (by decide) (by decide) (by decide) (by decide) (by decide) (by decide),
   (typeboxToZod_total_degradation "" "" [.vNum 1] (.vNum 1) 0 false).2.2.2.2.2.2.1
      (by simp) rfl,
   (typeboxToZod_total_degradation "" "" [.vNum 1] (.vNum 1) 0 false).2.2.2.2.2.2.2.1,
   ((typeboxToZod_total_degradation "" "[a-z]+" [] .vNull 0 false).2.2.2.2.2.2.2.2
      rfl).1⟩

/-- C4: for every adapted tool, when the wrapped executor rejects, the
adapted execute resolves normally with the string result
`Error: <message>` — the thrown value never propagates. -/
theorem adaptToolForMastra_execute_error :
    ∀ (tool : AgentTool) (context : JVal) (err : JsError),
      tool.execute context = .error err →
        (adaptToolForMastra tool).execute context =
          .vStr ("Error: " ++ jsErrorMessage err) := by
  intro tool context err h
  simp [adaptToolForMastra, h]

/-- C4 witness: the error-wrapping theorem applied to a concrete tool
whose executor rejects with message "tool error". -/
theorem adaptToolForMastra_execute_error_witness :
    failingTool.execute (.vObj []) = .error (.errorObj "tool error") ∧
    (adaptToolForMastra failingTool).execute (.vObj []) =
      .vStr ("Error: " ++ jsErrorMessage (.errorObj "tool error")) :=
  ⟨rfl, adaptToolForMastra_execute_error failingTool (.vObj []) (.errorObj "tool error") rfl⟩

/-- C5: the claim states that a byte ceiling is enforced on the output
of the adapted execute, independently of the transcript sanitizer. The
implemented adapter enforces no ceiling at all: a string result of any
length n is returned unchanged, so for every ceiling there is an output
that exceeds it. This theorem evaluates the code at the failing inputs. -/
theorem adaptToolForMastra_no_output_ceiling :
    ∀ (n : Nat),
      (adaptToolForMastra (hugeResultTool n)).execute (.vObj []) =
        .vStr (String.mk (List.replicate n 'a')) ∧
      (String.mk (List.replicate n 'a')).length = n := by
  intro n
  constructor
  · rfl
  · simp

/-- C6: if the compaction model call is aborted, times out, or errors,
the persisted transcript is unchanged; and the atomic rewrite means a
reader only ever observes the old transcript or the fully compacted one
(summary message followed by the kept suffix), never a partial write. -/
theorem mastraCompact_abort_preserves_transcript :
    ∀ (transcript : List JVal) (fki now c : Nat) (gen : Except JsError JVal),
      (∀ e, mastraGenerateSummary transcript now c gen = .error e →
        (mastraCompact transcript fki now c gen).1 = transcript) ∧
      ((mastraCompact transcript fki now c gen).1 = transcript ∨
       ∃ stext, (mastraCompact transcript fki now c gen).1 =
         summaryMessageFor stext :: transcript.drop fki) := by
  intro transcript fki now c gen
  constructor
  · intro e he
    simp [mastraCompact, he]
  · cases h : mastraGenerateSummary transcript now c gen with
    | error e => left; simp [mastraCompact, h]
    | ok s => right; exact ⟨s, by simp [mastraCompact, h]⟩

/-- C6 witness: an aborted model call on a one-message history leaves the
persisted transcript byte-identical. -/
theorem mastraCompact_abort_preserves_transcript_witness :
    (mastraCompact [.vObj [("role", .vStr "user"), ("content", .vStr "Hello")]]
      0 0 0 (.error (.errorObj "aborted"))).1 =
      [.vObj [("role", .vStr "user"), ("content", .vStr "Hello")]] :=
  (mastraCompact_abort_preserves_transcript
    [.vObj [("role", .vStr "user"), ("content", .vStr "Hello")]] 0 0 0
    (.error (.errorObj "aborted"))).1 (.errorObj "aborted") rfl

/-- C7: no message produced by the message translator has role system —
in both the implemented `toCoreMessages` and the draft revision, system
entries are skipped and supplied separately as per-run instructions. -/
theorem toCoreMessages_excludes_system :
    ∀ (now c : Nat) (msgs : List JVal),
      ((toCoreMessages now c msgs).1.all
        (fun m => !(jvIsStrEq (getField m "role") "system"))) = true ∧
      (MessageAdapterDraft.toCoreMessages msgs).all
        (fun m => !(jvIsStrEq (getField m "role") "system")) = true :=
  fun now c msgs =>
    ⟨toCoreMessages_all_roles now msgs c, draft_toCoreMessages_all_roles msgs⟩

/-- C8: while streaming, `queueMessage` appends the text to the
in-memory pending queue and changes nothing else — in particular the
session messages snapshot read by the in-flight engine call is
untouched; while not streaming, the call is a no-op. -/
theorem queueMessage_spec :
    ∀ (st : RunState) (text : String),
      (isStreaming st = true →
        queueMessage st text =
          { st with pendingMessages := st.pendingMessages ++ [text] }) ∧
      (isStreaming st = false → queueMessage st text = st) ∧
      (queueMessage st text).messages = st.messages ∧
      (queueMessage st text).streaming = st.streaming := by
  intro st text
  unfold queueMessage isStreaming
  by_cases h : st.streaming <;> simp [h]

/-- C8 witness: the queue-message theorem applied to a streaming state
and to the initial non-streaming state. -/
theorem queueMessage_spec_witness :
    queueMessage { streaming := true, pendingMessages := [], messages := [] } "next" =
      { streaming := true, pendingMessages := ["next"], messages := [] } ∧
    queueMessage (runMastraLlmCallInitState []) "next" = runMastraLlmCallInitState [] :=
  ⟨(queueMessage_spec { streaming := true, pendingMessages := [], messages := [] }
      "next").1 rfl,
   (queueMessage_spec (runMastraLlmCallInitState []) "next").2.1 rfl⟩

/-- C9: for a union schema (anyOf or oneOf, the anyOf key checked
first), one member collapses to that member's conversion, two members
give the two-member union, and three or more members give the variadic
union of all members converted in order. -/
theorem typeboxToZod_union_arity :
    (∀ (schema : JVal) (xs : List JVal),
      jsTruthy schema = true → jsIsObjType schema = true →
      asNonemptyArr (getField schema "anyOf") = some xs →
      ((∀ m, xs = [m] → typeboxToZod schema = typeboxToZod m) ∧
       (∀ m1 m2, xs = [m1, m2] →
         typeboxToZod schema = .zUnion [typeboxToZod m1, typeboxToZod m2]) ∧
       (3 ≤ xs.length → typeboxToZod schema = .zUnion (xs.map typeboxToZod)))) ∧
    (∀ (schema : JVal) (xs : List JVal),
      jsTruthy schema = true → jsIsObjType schema = true →
      asNonemptyArr (getField schema "anyOf") = none →
      asNonemptyArr (getField schema "oneOf") = some xs →
      ((∀ m, xs = [m] → typeboxToZod schema = typeboxToZod m) ∧
       (∀ m1 m2, xs = [m1, m2] →
         typeboxToZod schema = .zUnion [typeboxToZod m1, typeboxToZod m2]) ∧
       (3 ≤ xs.length → typeboxToZod schema = .zUnion (xs.map typeboxToZod)))) := by
  constructor
  · intro schema xs h1 h2 hA
    have he := typeboxToZod_anyOf_eq schema xs h1 h2 hA
    refine ⟨?_, ?_, ?_⟩
    · intro m hm; subst hm; rw [he]; rfl
    · intro m1 m2 hm; subst hm; rw [he]; rfl
    · intro hlen
      rw [he]
      apply mkUnion_of_length_ne_one
      simp only [List.length_map]
      omega
  · intro schema xs h1 h2 hA hO
    have he := typeboxToZod_oneOf_eq schema xs h1 h2 hA hO
    refine ⟨?_, ?_, ?_⟩
    · intro m hm; subst hm; rw [he]; rfl
    · intro m1 m2 hm; subst hm; rw [he]; rfl
    · intro hlen
      rw [he]
      apply mkUnion_of_length_ne_one
      simp only [List.length_map]
      omega

/-- C9 witness: the union-arity theorem applied at concrete one-, two-
and three-member anyOf schemas and a two-member oneOf schema. -/
theorem typeboxToZod_union_arity_witness :
    typeboxToZod (.vObj [("anyOf", .vArr [.vObj [("type", .vStr "string")]])]) =
      typeboxToZod (.vObj [("type", .vStr "string")]) ∧
    typeboxToZod (.vObj [("anyOf", .vArr [.vObj [("type", .vStr "string")],
        .vObj [("type", .vStr "number")]])]) =
      .zUnion [typeboxToZod (.vObj [("type", .vStr "string")]),
               typeboxToZod (.vObj [("type", .vStr "number")])] ∧
    typeboxToZod (.vObj [("anyOf", .vArr [.vObj [("type", .vStr "string")],
        .vObj [("type", .vStr "number")], .vObj [("type", .vStr "boolean")]])]) =
      .zUnion ([JVal.vObj [("type", .vStr "string")], .vObj [("type", .vStr "number")],
        .vObj [("type", .vStr "boolean")]].map typeboxToZod) ∧
    typeboxToZod (.vObj [("oneOf", .vArr [.vObj [("type", .vStr "string")],
        .vObj [("type", .vStr "number")]])]) =
      .zUnion [typeboxToZod (.vObj [("type", .vStr "string")]),
               typeboxToZod (.vObj [("type", .vStr "number")])] :=
  ⟨(typeboxToZod_union_arity.1 (.vObj [("anyOf", .vArr [.vObj [("type", .vStr "string")]])])
      [.vObj [("type", .vStr "string")]] rfl rfl rfl).1 _ rfl,
   (typeboxToZod_union_arity.1 (.vObj [("anyOf", .vArr [.vObj [("type", .vStr "string")],
      .vObj [("type", .vStr "number")]])])
      [.vObj [("type", .vStr "string")], .vObj [("type", .vStr "number")]] rfl rfl rfl).2.1
      _ _ rfl,
   (typeboxToZod_union_arity.1 (.vObj [("anyOf", .vArr [.vObj [("type", .vStr "string")],
      .vObj [("type", .vStr "number")], .vObj [("type", .vStr "boolean")]])])
      [.vObj [("type", .vStr "string")], .vObj [("type", .vStr "number")],
       .vObj [("type", .vStr "boolean")]] rfl rfl rfl).2.2 (by simp),
   (typeboxToZod_union_arity.2 (.vObj [("oneOf", .vArr [.vObj [("type", .vStr "string")],
      .vObj [("type", .vStr "number")]])])
      [.vObj [("type", .vStr "string")], .vObj [("type", .vStr "number")]] rfl rfl rfl
      rfl).2.1 _ _ rfl⟩

/-- C10: looking up any key in the record built by `adaptToolsForMastra`
yields the adaptation of the last tool in input order whose name is that
non-empty string (later duplicates overwrite earlier ones); the record
holds at most one entry per name, and tools with an empty or non-string
name contribute no entry. -/
theorem adaptToolsForMastra_last_wins :
    ∀ (tools : List AgentTool) (key : String),
      recLookup (adaptToolsForMastra tools) key =
        (lastValidTool tools key).map adaptToolForMastra ∧
      ((adaptToolsForMastra tools).map Prod.fst).Nodup := by
  intro tools key
  constructor
  · rw [adaptToolsForMastra, adaptGo_lookup key tools []]
    cases lastValidTool tools key <;> rfl
  · exact adaptGo_nodup tools [] (by simp)
